import Mathlib

/-!
Shallow embedding of `src/main.py` (english-learning-tools): the width
calculator `adjust_length_ja_en`, the color allocator `generate_color_tag`,
the token/tag line composer `format_token_tag_pairs`, the batch formatter
`format`, and the translation pass-through `translate`.

Python strings are modelled as `List Char` (sequences of Unicode code
points); Python `len` is `List.length`.
-/

/-- A Python string value: a sequence of Unicode code points. -/
abbrev PyStr := List Char

/-- The code points of a Lean string literal, used to write `PyStr` values. -/
def str (s : String) : PyStr := s.data

/-- Modelled from `unicodedata.normalize("NFKC", ·)` (an external library the
source calls), restricted to per-character compatibility decomposition: the
table covers the compatibility characters used in this development
(`㍍` → `メートル`, `①` → `1`); every other character is its own
normalization.  Combining-sequence composition is not modelled, as no input
in this development contains combining characters. -/
def nfkcChar (c : Char) : List Char :=
  if c = '㍍' then str "メートル"
  else if c = '①' then str "1"
  else [c]

/-- NFKC normalization of a whole string: concatenation of the
per-character normalizations (see `nfkcChar`). -/
def normalizeNFKC : PyStr → PyStr
  | [] => []
  | c :: rest => nfkcChar c ++ normalizeNFKC rest

/-- Intervals of code points whose Unicode East-Asian-width property is `W`
(from `EastAsianWidth.txt`: Hangul Jamo, CJK punctuation, kana, CJK
compatibility blocks, CJK ideographs, Hangul syllables). -/
def wideRanges : List (Nat × Nat) :=
  [(0x1100, 0x115F), (0x2E80, 0x2FFB), (0x3001, 0x303E),
   (0x3041, 0x3096), (0x3099, 0x30FF), (0x3105, 0x312F),
   (0x3131, 0x318E), (0x31F0, 0x321E), (0x3250, 0x4DBF),
   (0x4E00, 0x9FFF), (0xA960, 0xA97F), (0xAC00, 0xD7A3),
   (0xF900, 0xFAFF)]

/-- Modelled from `unicodedata.east_asian_width` (an external library the
source calls).  Only the distinction between `"W"` and the other width
classes is consulted by the source (it is compared with `"W"`), so the
model returns `"W"` exactly on `wideRanges`, `"Na"` on the printable ASCII
range, and `"N"` otherwise. -/
def east_asian_width (c : Char) : String :=
  if wideRanges.any (fun r => decide (r.1 ≤ c.toNat ∧ c.toNat ≤ r.2)) then "W"
  else if 0x20 ≤ c.toNat ∧ c.toNat < 0x7F then "Na"
  else "N"

/-- The configuration fields of the source's `TextsFormatter` class, in the
order of the `__init__` parameters. -/
structure TextsFormatter where
  is_list : Bool := false
  is_translate : Bool := false
  language_code : Option PyStr := none
  color_enabled : Bool := false
  colors_to_remove : List PyStr := []

/-- The static method `TextsFormatter.adjust_length_ja_en` of `src/main.py`:
NFKC-normalize, then fold over the resulting characters adding 2 when the
East-Asian-width class is `"W"` and 1 otherwise. -/
def TextsFormatter.adjust_length_ja_en (ja_string : PyStr) : Nat :=
  let ja_characters := normalizeNFKC ja_string
  ja_characters.foldl
    (fun adjusted_length character =>
      if east_asian_width character = "W" then adjusted_length + 2
      else adjusted_length + 1) 0

/-- Per-character display width as the spec words it: 2 for East-Asian wide
characters, 1 otherwise. -/
def charDisplayWidth (c : Char) : Nat :=
  if east_asian_width c = "W" then 2 else 1

/-- Display width as the spec words it: the sum, over each character of the
NFKC-normalized form, of the per-character width. -/
def specDisplayWidth (s : PyStr) : Nat :=
  ((normalizeNFKC s).map charDisplayWidth).sum

/-- Modelled from `termcolor.COLORS` (termcolor 2.x): the ordered
color-name → ANSI-code catalog, in dictionary insertion order. -/
def COLORS : List (PyStr × Nat) :=
  [(str "black", 30), (str "grey", 30), (str "red", 31), (str "green", 32),
   (str "yellow", 33), (str "blue", 34), (str "magenta", 35), (str "cyan", 36),
   (str "light_grey", 37), (str "dark_grey", 90), (str "light_red", 91),
   (str "light_green", 92), (str "light_yellow", 93), (str "light_blue", 94),
   (str "light_magenta", 95), (str "light_cyan", 96), (str "white", 97)]

/-- Modelled from `termcolor.colored(text, color)` (environment variables and
the attribute arguments unused by the source are not modelled): the ANSI
escape sequence of the color's code, the text, then the reset sequence.
Every call in the source passes a key of `COLORS`, so the catalog lookup
succeeds; an unknown name defaults to code 0 where termcolor would raise. -/
def colored (text : PyStr) (color : PyStr) : PyStr :=
  let code := ((COLORS.find? (fun p => decide (p.1 = color))).map Prod.snd).getD 0
  ('\x1b' :: '[' :: (Nat.repr code).data) ++ ('m' :: text) ++ str "\x1b[0m"

/-- Python `set.add` on a list model: append the element unless already
present (set membership is value equality). -/
def pySetIns (acc : List PyStr) (x : PyStr) : List PyStr :=
  if x ∈ acc then acc else acc ++ [x]

/-- Python `list(set(xs))` and iteration over a set built from `xs`: the
distinct values of `xs`.  CPython's set iteration order is unspecified
(spec §9 treats it as such); the model fixes first-occurrence order. -/
def pySetList (xs : List PyStr) : List PyStr := xs.foldl pySetIns []

/-- Python dict insertion on an association-list model: update in place when
the key is present, otherwise append. -/
def pyDictIns (d : List (PyStr × PyStr)) (k v : PyStr) : List (PyStr × PyStr) :=
  if d.any (fun p => decide (p.1 = k)) then
    d.map (fun p => if p.1 = k then (k, v) else p)
  else d ++ [(k, v)]

/-- Python dict comprehension over a pair sequence (a later duplicate key
overwrites the earlier entry in place). -/
def pyDictOfPairs (ps : List (PyStr × PyStr)) : List (PyStr × PyStr) :=
  ps.foldl (fun d p => pyDictIns d p.1 p.2) []

/-- Python dict subscript `d[k]`: `some` value when the key is present,
`none` (a KeyError) otherwise. -/
def pyDictGet (d : List (PyStr × PyStr)) (k : PyStr) : Option PyStr :=
  (d.find? (fun p => decide (p.1 = k))).map Prod.snd

/-- The list comprehension inside `generate_color_tag`: all catalog color
names not in `colors_to_remove`, in catalog order. -/
def availableColors (colors_to_remove : List PyStr) : List PyStr :=
  (COLORS.map Prod.fst).filter (fun color => decide (color ∉ colors_to_remove))

/-- The static method `TextsFormatter.generate_color_tag` of `src/main.py`:
zip the tags with the non-removed catalog colors into a dict (`zip`
truncates at the shorter sequence, so excess tags get no entry). -/
def TextsFormatter.generate_color_tag (tags : List PyStr)
    (colors_to_remove : List PyStr) : List (PyStr × PyStr) :=
  let colors := availableColors colors_to_remove
  pyDictOfPairs (tags.zip colors)

/-- Python `s.ljust(width, ' ')`: pad with trailing spaces up to `width`
counted in characters; strings at least `width` long are unchanged. -/
def pyLjust (s : PyStr) (width : Nat) : PyStr :=
  s ++ List.replicate (width - s.length) ' '

/-- Python `sep.join(xs)`. -/
def pyJoin (sep : PyStr) : List PyStr → PyStr
  | [] => []
  | [x] => x
  | x :: rest => x ++ sep ++ pyJoin sep rest

/-- Concatenation of a list of strings. -/
def strConcat : List PyStr → PyStr
  | [] => []
  | x :: rest => x ++ strConcat rest

/-- The mutable state of the per-pair loop in `format_token_tag_pairs`:
the list-mode tag set and the three accumulated lines. -/
structure FmtState where
  tag_list : List PyStr
  tokens : PyStr
  under_line : PyStr
  part_of_speech_line : PyStr

/-- One iteration of the loop in `format_token_tag_pairs` (`src/main.py`
lines 124-145): compute the tag's display width, color the tag when
enabled (`none` models the KeyError when the tag has no assigned color),
widen the column and pad the displayed tag in inline mode or collect the
displayed tag into the set in list mode, then append the padded token, the
displayed tag and the underline run to the three lines. -/
def fttpStep (f : TextsFormatter) (color_tag : List (PyStr × PyStr))
    (st : FmtState) (p : PyStr × PyStr) : Option FmtState :=
  let token := p.1
  let tag := p.2
  let tag_length := TextsFormatter.adjust_length_ja_en tag
  let colorOpt : Option PyStr :=
    if f.color_enabled then pyDictGet color_tag tag else some []
  match colorOpt with
  | none => none
  | some color =>
    let tagDisp := if f.color_enabled then colored tag color else tag
    let adjusted_length := token.length
    let step :=
      if ¬ f.is_list then
        let adjusted_length := max adjusted_length tag_length
        let tagDisp :=
          if tag_length < adjusted_length then
            tagDisp ++ List.replicate (adjusted_length - tag_length) ' '
          else tagDisp
        (adjusted_length, tagDisp, st.tag_list)
      else (adjusted_length, tagDisp, pySetIns st.tag_list tagDisp)
    let adjusted_length := step.1
    let tagDisp := step.2.1
    let tag_list := step.2.2
    let tokens := st.tokens ++ (' ' :: pyLjust token adjusted_length)
    let part_of_speech_line := st.part_of_speech_line ++ (' ' :: tagDisp)
    let token_under_line := List.replicate adjusted_length '▔'
    let token_under_line :=
      if f.color_enabled then colored token_under_line color else token_under_line
    some ⟨tag_list, tokens, st.under_line ++ (' ' :: token_under_line),
      part_of_speech_line⟩

/-- The color dictionary `format_token_tag_pairs` builds before its loop:
the distinct tags of the pairs, allocated colors. -/
def colorTagOf (f : TextsFormatter) (token_tag_pairs : List (PyStr × PyStr)) :
    List (PyStr × PyStr) :=
  TextsFormatter.generate_color_tag (pySetList (token_tag_pairs.map Prod.snd))
    f.colors_to_remove

/-- The method `TextsFormatter.format_token_tag_pairs` of `src/main.py`:
build the tag → color dict, run the per-pair loop, then in list mode
replace the part-of-speech line by the "- "-bulleted distinct displayed
tags sorted by ascending length (Python's `sorted` is a stable sort, here
`List.mergeSort`).  `none` models the KeyError raised when a tag has no
assigned color. -/
def TextsFormatter.format_token_tag_pairs (f : TextsFormatter)
    (token_tag_pairs : List (PyStr × PyStr)) : Option (List PyStr) := do
  let color_tag := colorTagOf f token_tag_pairs
  let st ← token_tag_pairs.foldlM (fttpStep f color_tag) ⟨[], [], [], []⟩
  let part_of_speech_line :=
    if f.is_list then
      pyJoin (str "\n")
        ((st.tag_list.mergeSort (fun a b => decide (a.length ≤ b.length))).map
          (fun tag => str "- " ++ tag))
    else st.part_of_speech_line
  pure [st.tokens, st.under_line, part_of_speech_line]

/-- The `TaggedTokens` TypedDict of `src/main.py`. -/
structure TaggedTokens where
  text : PyStr
  token_tag_pairs : List (PyStr × PyStr)

/-- The method `TextsFormatter.translate` of `src/main.py`.  The external
`googletrans` call is modelled by the `translator` oracle; with no
configured language code the text passes through unchanged. -/
def TextsFormatter.translate (f : TextsFormatter)
    (translator : PyStr → PyStr → PyStr) (text : PyStr) : PyStr :=
  match f.language_code with
  | none => text
  | some language_code => translator text language_code

/-- The method `TextsFormatter.format` of `src/main.py`.  The terminal
width query `os.get_terminal_size().columns` is modelled by the
`terminal_width` parameter. -/
def TextsFormatter.format (f : TextsFormatter)
    (translator : PyStr → PyStr → PyStr) (terminal_width : Nat)
    (texts_data : List TaggedTokens) : Option PyStr := do
  let formatted_texts ← texts_data.mapM (fun text_data => do
    let formatted_text ← f.format_token_tag_pairs text_data.token_tag_pairs
    let formatted_text :=
      if f.is_translate then
        formatted_text ++ [('\n' :: f.translate translator text_data.text)]
      else formatted_text
    let formatted_text :=
      formatted_text ++ [('\n' :: List.replicate terminal_width '─') ++ str "\n"]
    pure (pyJoin (str "\n") formatted_text))
  pure (pyJoin (str "\n") formatted_texts)

/-- The `TextsFormatterDeepL` subclass: the base configuration plus the
DeepL API key. -/
structure TextsFormatterDeepL extends TextsFormatter where
  api_key : PyStr

/-- The overridden `translate` of `TextsFormatterDeepL`.  The external
DeepL client and `langdetect.detect` are modelled by the `translator` and
`detect` oracles; with no configured language code the text passes through
unchanged, before any detection or API call. -/
def TextsFormatterDeepL.translate (d : TextsFormatterDeepL)
    (translator : PyStr → PyStr → PyStr → PyStr) (detect : PyStr → PyStr)
    (text : PyStr) : PyStr :=
  match d.language_code with
  | none => text
  | some language_code => translator text (detect text) language_code

/-- The column width allocated to one token/tag pair: the token's character
count, widened in inline mode to at least the tag's display width. -/
def adjustedLength (f : TextsFormatter) (p : PyStr × PyStr) : Nat :=
  if f.is_list then p.1.length
  else max p.1.length (TextsFormatter.adjust_length_ja_en p.2)

/-- The color the loop uses for a pair's tag (empty when color is off). -/
def slotColor (f : TextsFormatter) (color_tag : List (PyStr × PyStr))
    (tag : PyStr) : PyStr :=
  if f.color_enabled then (pyDictGet color_tag tag).getD [] else []

/-- The displayed form of a pair's tag: wrapped in its color when enabled,
and padded with trailing spaces to the column width in inline mode. -/
def displayedTag (f : TextsFormatter) (color_tag : List (PyStr × PyStr))
    (p : PyStr × PyStr) : PyStr :=
  let tagDisp :=
    if f.color_enabled then colored p.2 (slotColor f color_tag p.2) else p.2
  if ¬ f.is_list ∧ TextsFormatter.adjust_length_ja_en p.2 < adjustedLength f p then
    tagDisp
      ++ List.replicate (adjustedLength f p - TextsFormatter.adjust_length_ja_en p.2) ' '
  else tagDisp

/-- The token-line slot of a pair: the token left-justified to the column
width by character count. -/
def tokenSlot (f : TextsFormatter) (p : PyStr × PyStr) : PyStr :=
  pyLjust p.1 (adjustedLength f p)

/-- The underline slot of a pair: the column width's worth of `▔`, colored
like the tag when color is enabled. -/
def underlineSlot (f : TextsFormatter) (color_tag : List (PyStr × PyStr))
    (p : PyStr × PyStr) : PyStr :=
  let u := List.replicate (adjustedLength f p) '▔'
  if f.color_enabled then colored u (slotColor f color_tag p.2) else u

theorem width_foldl_eq_sum (l : List Char) (n : Nat) :
    l.foldl
      (fun adjusted_length character =>
        if east_asian_width character = "W" then adjusted_length + 2
        else adjusted_length + 1) n
      = n + (l.map charDisplayWidth).sum := by
  induction l generalizing n with
  | nil => simp
  | cons c rest ih =>
      simp only [List.foldl_cons, List.map_cons, List.sum_cons, ih, charDisplayWidth]
      split <;> omega

theorem adjust_length_eq_specDisplayWidth (s : PyStr) :
    TextsFormatter.adjust_length_ja_en s = specDisplayWidth s := by
  unfold TextsFormatter.adjust_length_ja_en specDisplayWidth
  simpa using width_foldl_eq_sum (normalizeNFKC s) 0

theorem normalizeNFKC_append (a b : PyStr) :
    normalizeNFKC (a ++ b) = normalizeNFKC a ++ normalizeNFKC b := by
  induction a with
  | nil => rfl
  | cons c rest ih => simp [normalizeNFKC, ih]

theorem adjust_length_append (a b : PyStr) :
    TextsFormatter.adjust_length_ja_en (a ++ b)
      = TextsFormatter.adjust_length_ja_en a + TextsFormatter.adjust_length_ja_en b := by
  simp [adjust_length_eq_specDisplayWidth, specDisplayWidth, normalizeNFKC_append]

theorem nfkcChar_ascii (c : Char) (h : c.toNat < 128) : nfkcChar c = [c] := by
  have h1 : c ≠ '㍍' := by intro e; subst e; exact absurd h (by decide)
  have h2 : c ≠ '①' := by intro e; subst e; exact absurd h (by decide)
  simp [nfkcChar, h1, h2]

theorem east_asian_width_ascii (c : Char) (h : c.toNat < 128) :
    east_asian_width c ≠ "W" := by
  have hany : wideRanges.any (fun r => decide (r.1 ≤ c.toNat ∧ c.toNat ≤ r.2)) = false := by
    simp [wideRanges]
    omega
  unfold east_asian_width
  rw [hany]
  simp only [Bool.false_eq_true, if_false]
  split <;> decide

theorem charDisplayWidth_ascii (c : Char) (h : c.toNat < 128) :
    charDisplayWidth c = 1 := by
  simp [charDisplayWidth, east_asian_width_ascii c h]

/-- C2: `adjust_length_ja_en` equals the NFKC-then-per-character width sum;
the empty string gives 0; every ASCII-only string gives its character
count. -/
theorem adjust_length_spec_conformance :
    (∀ s : PyStr, TextsFormatter.adjust_length_ja_en s = specDisplayWidth s) ∧
    TextsFormatter.adjust_length_ja_en (str "") = 0 ∧
    (∀ s : PyStr, (∀ c ∈ s, c.toNat < 128) →
      TextsFormatter.adjust_length_ja_en s = s.length) := by
  refine ⟨adjust_length_eq_specDisplayWidth, rfl, ?_⟩
  intro s h
  induction s with
  | nil => rfl
  | cons c rest ih =>
      have hc : c.toNat < 128 := h c (by simp)
      have hr := ih (fun d hd => h d (List.mem_cons_of_mem _ hd))
      rw [adjust_length_eq_specDisplayWidth] at hr ⊢
      unfold specDisplayWidth at hr ⊢
      simp only [normalizeNFKC, nfkcChar_ascii c hc, List.map_append, List.sum_append,
        List.map_cons, List.map_nil, List.sum_cons, List.sum_nil,
        charDisplayWidth_ascii c hc, List.length_cons]
      omega

/-- Witness for C2 at the ASCII string "Determiner". -/
theorem adjust_length_spec_conformance_witness :
    (∀ c ∈ str "Determiner", c.toNat < 128) ∧
    TextsFormatter.adjust_length_ja_en (str "Determiner") = (str "Determiner").length :=
  ⟨by decide, adjust_length_spec_conformance.2.2 (str "Determiner") (by decide)⟩

/-- C9 counterexample: "㍍" consists solely of East-Asian wide characters,
yet its computed width is 8 (NFKC decomposes it to メートル, four wide
characters), not 2 × 1. -/
theorem wide_string_width_counterexample :
    (∀ c ∈ str "㍍", east_asian_width c = "W") ∧
    TextsFormatter.adjust_length_ja_en (str "㍍") ≠ 2 * (str "㍍").length := by
  decide

/-- C9 (amended): for every string all of whose characters are East-Asian
wide and NFKC-invariant, `adjust_length_ja_en` is twice the character
count. -/
theorem wide_nfkc_invariant_width (s : PyStr)
    (h : ∀ c ∈ s, east_asian_width c = "W" ∧ nfkcChar c = [c]) :
    TextsFormatter.adjust_length_ja_en s = 2 * s.length := by
  induction s with
  | nil => rfl
  | cons c rest ih =>
      obtain ⟨hw, hn⟩ := h c (by simp)
      have hr := ih (fun d hd => h d (List.mem_cons_of_mem _ hd))
      have h2 : charDisplayWidth c = 2 := by simp [charDisplayWidth, hw]
      rw [adjust_length_eq_specDisplayWidth] at hr ⊢
      unfold specDisplayWidth at hr ⊢
      simp only [normalizeNFKC, hn, List.map_append, List.sum_append, List.map_cons,
        List.map_nil, List.sum_cons, List.sum_nil, h2, List.length_cons]
      omega

/-- Witness for the amended C9 at the all-wide NFKC-invariant string
"名詞". -/
theorem wide_nfkc_invariant_width_witness :
    (∀ c ∈ str "名詞", east_asian_width c = "W" ∧ nfkcChar c = [c]) ∧
    TextsFormatter.adjust_length_ja_en (str "名詞") = 2 * (str "名詞").length :=
  ⟨by decide, wide_nfkc_invariant_width (str "名詞") (by decide)⟩

theorem pyDictOfPairs_go (ps : List (PyStr × PyStr)) (d : List (PyStr × PyStr))
    (h : (d.map Prod.fst ++ ps.map Prod.fst).Nodup) :
    ps.foldl (fun d p => pyDictIns d p.1 p.2) d = d ++ ps := by
  induction ps generalizing d with
  | nil => simp
  | cons p rest ih =>
      have hdisj : (d.map Prod.fst).Disjoint ((p :: rest).map Prod.fst) :=
        (List.nodup_append.mp h).2.2
      have hk : p.1 ∉ d.map Prod.fst := fun hin => hdisj hin (by simp)
      have hany : d.any (fun q => decide (q.1 = p.1)) = false := by
        simp only [List.any_eq_false, decide_eq_true_eq]
        intro q hq he
        exact hk (he ▸ List.mem_map_of_mem Prod.fst hq)
      have hins : pyDictIns d p.1 p.2 = d ++ [p] := by
        unfold pyDictIns
        rw [hany]
        rfl
      have h' : ((d ++ [p]).map Prod.fst ++ rest.map Prod.fst).Nodup := by
        rw [List.map_append, List.append_assoc]
        simpa using h
      simp only [List.foldl_cons, hins, ih (d ++ [p]) h', List.append_assoc,
        List.singleton_append]

theorem pyDictOfPairs_of_nodup_keys (ps : List (PyStr × PyStr))
    (h : (ps.map Prod.fst).Nodup) : pyDictOfPairs ps = ps := by
  simpa using pyDictOfPairs_go ps [] (by simpa using h)

theorem map_fst_zip_eq_take (as bs : List PyStr) :
    ((as.zip bs).map Prod.fst) = as.take bs.length := by
  induction as generalizing bs with
  | nil => simp
  | cons a rest ih =>
      cases bs with
      | nil => simp
      | cons b bt => simp [ih]

theorem map_snd_zip_eq_take (as bs : List PyStr) :
    ((as.zip bs).map Prod.snd) = bs.take as.length := by
  induction as generalizing bs with
  | nil => simp
  | cons a rest ih =>
      cases bs with
      | nil => simp
      | cons b bt => simp [ih]

theorem availableColors_nodup (colors_to_remove : List PyStr) :
    (availableColors colors_to_remove).Nodup := by
  have h : (COLORS.map Prod.fst).Nodup := by decide
  exact h.filter _

theorem generate_color_tag_eq_zip (tags colors_to_remove : List PyStr)
    (hnd : tags.Nodup) :
    TextsFormatter.generate_color_tag tags colors_to_remove
      = tags.zip (availableColors colors_to_remove) := by
  unfold TextsFormatter.generate_color_tag
  apply pyDictOfPairs_of_nodup_keys
  rw [map_fst_zip_eq_take]
  exact (List.take_sublist _ _).nodup hnd

/-- C5: for a duplicate-free tag list no longer than the non-excluded
palette, `generate_color_tag` is defined on every tag in order, assigns
pairwise-distinct colors, and assigns no excluded color. -/
theorem generate_color_tag_bijective (tags colors_to_remove : List PyStr)
    (hnd : tags.Nodup)
    (hlen : tags.length ≤ (availableColors colors_to_remove).length) :
    (TextsFormatter.generate_color_tag tags colors_to_remove).map Prod.fst = tags ∧
    ((TextsFormatter.generate_color_tag tags colors_to_remove).map Prod.snd).Nodup ∧
    ∀ p ∈ TextsFormatter.generate_color_tag tags colors_to_remove,
      p.2 ∉ colors_to_remove := by
  rw [generate_color_tag_eq_zip tags colors_to_remove hnd]
  refine ⟨?_, ?_, ?_⟩
  · rw [map_fst_zip_eq_take]
    exact List.take_of_length_le hlen
  · rw [map_snd_zip_eq_take]
    exact (List.take_sublist _ _).nodup (availableColors_nodup colors_to_remove)
  · intro p hp
    have hmem : p.2 ∈ availableColors colors_to_remove := by
      obtain ⟨a, b⟩ := p
      exact (List.of_mem_zip hp).2
    have := (List.mem_filter.mp hmem).2
    simpa using this

/-- Witness for C5 with two tags and one excluded color. -/
theorem generate_color_tag_bijective_witness :
    ([str "NN", str "VB"].Nodup ∧
      [str "NN", str "VB"].length ≤ (availableColors [str "black"]).length) ∧
    ((TextsFormatter.generate_color_tag [str "NN", str "VB"] [str "black"]).map
        Prod.fst = [str "NN", str "VB"] ∧
      ((TextsFormatter.generate_color_tag [str "NN", str "VB"] [str "black"]).map
        Prod.snd).Nodup ∧
      ∀ p ∈ TextsFormatter.generate_color_tag [str "NN", str "VB"] [str "black"],
        p.2 ∉ [str "black"]) :=
  ⟨⟨by decide, by decide⟩,
    generate_color_tag_bijective [str "NN", str "VB"] [str "black"]
      (by decide) (by decide)⟩

theorem fttpStep_eq (f : TextsFormatter) (ct : List (PyStr × PyStr))
    (st : FmtState) (p : PyStr × PyStr)
    (hc : f.color_enabled = true → (pyDictGet ct p.2).isSome) :
    fttpStep f ct st p = some
      { tag_list :=
          if f.is_list then pySetIns st.tag_list (displayedTag f ct p)
          else st.tag_list,
        tokens := st.tokens ++ (' ' :: tokenSlot f p),
        under_line := st.under_line ++ (' ' :: underlineSlot f ct p),
        part_of_speech_line :=
          st.part_of_speech_line ++ (' ' :: displayedTag f ct p) } := by
  cases hce : f.color_enabled with
  | true =>
      obtain ⟨c, hget⟩ := Option.isSome_iff_exists.mp (hc hce)
      cases hil : f.is_list <;>
        simp [fttpStep, tokenSlot, underlineSlot, displayedTag, slotColor,
          adjustedLength, hce, hil, hget]
  | false =>
      cases hil : f.is_list <;>
        simp [fttpStep, tokenSlot, underlineSlot, displayedTag, slotColor,
          adjustedLength, hce, hil]

theorem fttp_foldlM_closed (f : TextsFormatter) (ct : List (PyStr × PyStr))
    (pairs : List (PyStr × PyStr)) (st : FmtState)
    (hm : f.color_enabled = true → ∀ p ∈ pairs, (pyDictGet ct p.2).isSome) :
    pairs.foldlM (fttpStep f ct) st = some
      { tag_list :=
          if f.is_list then
            (pairs.map (displayedTag f ct)).foldl pySetIns st.tag_list
          else st.tag_list,
        tokens := st.tokens ++ strConcat (pairs.map (fun p => ' ' :: tokenSlot f p)),
        under_line := st.under_line
          ++ strConcat (pairs.map (fun p => ' ' :: underlineSlot f ct p)),
        part_of_speech_line := st.part_of_speech_line
          ++ strConcat (pairs.map (fun p => ' ' :: displayedTag f ct p)) } := by
  induction pairs generalizing st with
  | nil =>
      cases st
      cases f.is_list <;> simp [strConcat]
  | cons p rest ih =>
      rw [List.foldlM_cons,
        fttpStep_eq f ct st p (fun hce => hm hce p (by simp)),
        Option.bind_eq_bind, Option.some_bind,
        ih _ (fun hce q hq => hm hce q (List.mem_cons_of_mem _ hq))]
      cases hil : f.is_list <;>
        simp [hil, strConcat, List.append_assoc]

theorem format_token_tag_pairs_closed (f : TextsFormatter)
    (pairs : List (PyStr × PyStr))
    (hm : f.color_enabled = true →
      ∀ p ∈ pairs, (pyDictGet (colorTagOf f pairs) p.2).isSome) :
    f.format_token_tag_pairs pairs = some
      [ strConcat (pairs.map (fun p => ' ' :: tokenSlot f p)),
        strConcat (pairs.map (fun p => ' ' :: underlineSlot f (colorTagOf f pairs) p)),
        if f.is_list then
          pyJoin (str "\n")
            (((pySetList (pairs.map (displayedTag f (colorTagOf f pairs)))).mergeSort
                (fun a b => decide (a.length ≤ b.length))).map
              (fun tag => str "- " ++ tag))
        else
          strConcat (pairs.map (fun p => ' ' :: displayedTag f (colorTagOf f pairs) p)) ] := by
  unfold TextsFormatter.format_token_tag_pairs
  dsimp only
  rw [fttp_foldlM_closed f (colorTagOf f pairs) pairs ⟨[], [], [], []⟩ hm]
  cases hil : f.is_list <;> simp [hil, pySetList]

theorem adjust_length_replicate_space (n : Nat) :
    TextsFormatter.adjust_length_ja_en (List.replicate n ' ') = n := by
  have h1 : TextsFormatter.adjust_length_ja_en [' '] = 1 := by decide
  induction n with
  | zero => rfl
  | succ k ih =>
      rw [List.replicate_succ, show (' ' :: List.replicate k ' ')
          = [' '] ++ List.replicate k ' ' from rfl,
        adjust_length_append, ih, h1]
      omega

theorem displayedTag_inline (f : TextsFormatter) (ct : List (PyStr × PyStr))
    (hl : f.is_list = false) (p : PyStr × PyStr) :
    displayedTag f ct p =
      (if f.color_enabled then colored p.2 (slotColor f ct p.2) else p.2)
        ++ List.replicate
            (adjustedLength f p - TextsFormatter.adjust_length_ja_en p.2) ' ' := by
  unfold displayedTag
  by_cases h : TextsFormatter.adjust_length_ja_en p.2 < adjustedLength f p
  · simp [hl, h]
  · have h0 : adjustedLength f p - TextsFormatter.adjust_length_ja_en p.2 = 0 := by
      omega
    simp [hl, h, h0]

theorem displayedTag_list_nocolor (f : TextsFormatter) (ct : List (PyStr × PyStr))
    (hl : f.is_list = true) (hc : f.color_enabled = false) (p : PyStr × PyStr) :
    displayedTag f ct p = p.2 := by
  simp [displayedTag, hl, hc]

theorem mem_pySetIns (acc : List PyStr) (x a : PyStr) :
    a ∈ pySetIns acc x ↔ a ∈ acc ∨ a = x := by
  by_cases h : x ∈ acc
  · simp only [pySetIns, if_pos h]
    constructor
    · exact Or.inl
    · rintro (h1 | rfl)
      · exact h1
      · exact h
  · simp [pySetIns, if_neg h]

theorem mem_foldl_pySetIns (xs : List PyStr) (acc : List PyStr) (a : PyStr) :
    a ∈ xs.foldl pySetIns acc ↔ a ∈ acc ∨ a ∈ xs := by
  induction xs generalizing acc with
  | nil => simp
  | cons x rest ih =>
      rw [List.foldl_cons, ih, mem_pySetIns]
      simp only [List.mem_cons]
      tauto

theorem mem_pySetList (xs : List PyStr) (a : PyStr) :
    a ∈ pySetList xs ↔ a ∈ xs := by
  unfold pySetList
  rw [mem_foldl_pySetIns]
  simp

theorem nodup_pySetIns (acc : List PyStr) (x : PyStr) (h : acc.Nodup) :
    (pySetIns acc x).Nodup := by
  by_cases hx : x ∈ acc
  · simpa [pySetIns, if_pos hx] using h
  · simp [pySetIns, if_neg hx, List.nodup_append, h, hx]

theorem nodup_foldl_pySetIns (xs : List PyStr) (acc : List PyStr)
    (h : acc.Nodup) : (xs.foldl pySetIns acc).Nodup := by
  induction xs generalizing acc with
  | nil => simpa
  | cons x rest ih => exact ih _ (nodup_pySetIns acc x h)

theorem pySetList_nodup (xs : List PyStr) : (pySetList xs).Nodup :=
  nodup_foldl_pySetIns xs [] List.nodup_nil

theorem mem_strConcat (c : Char) (l : List PyStr) :
    c ∈ strConcat l ↔ ∃ s ∈ l, c ∈ s := by
  induction l with
  | nil => simp [strConcat]
  | cons x rest ih => simp [strConcat, ih]

theorem mem_pyJoin (c : Char) (sep : PyStr) (l : List PyStr)
    (h : c ∈ pyJoin sep l) : c ∈ sep ∨ ∃ s ∈ l, c ∈ s := by
  induction l with
  | nil => cases h
  | cons x rest ih =>
      cases rest with
      | nil => exact Or.inr ⟨x, by simp, h⟩
      | cons y t =>
          rw [show pyJoin sep (x :: y :: t) = x ++ sep ++ pyJoin sep (y :: t)
            from rfl] at h
          rcases List.mem_append.mp h with h1 | h2
          · rcases List.mem_append.mp h1 with h3 | h4
            · exact Or.inr ⟨x, by simp, h3⟩
            · exact Or.inl h4
          · rcases ih h2 with h3 | ⟨s, hs, hcs⟩
            · exact Or.inl h3
            · exact Or.inr ⟨s, List.mem_cons_of_mem _ hs, hcs⟩

/-- C3: in inline mode the composer uses the column width
max(len(token), displayWidth(tag)) computed on the unwrapped tag, pads the
displayed (possibly colored) tag with exactly columnWidth − tagWidth
trailing spaces, and left-justifies the token to columnWidth by character
count. -/
theorem inline_mode_layout (f : TextsFormatter) (pairs : List (PyStr × PyStr))
    (hl : f.is_list = false)
    (hm : f.color_enabled = true →
      ∀ p ∈ pairs, (pyDictGet (colorTagOf f pairs) p.2).isSome) :
    f.format_token_tag_pairs pairs = some
      [ strConcat (pairs.map (fun p =>
          ' ' :: pyLjust p.1
            (max p.1.length (TextsFormatter.adjust_length_ja_en p.2)))),
        strConcat (pairs.map (fun p =>
          ' ' :: underlineSlot f (colorTagOf f pairs) p)),
        strConcat (pairs.map (fun p =>
          ' ' :: ((if f.color_enabled then
                    colored p.2 (slotColor f (colorTagOf f pairs) p.2)
                  else p.2)
            ++ List.replicate
                (max p.1.length (TextsFormatter.adjust_length_ja_en p.2)
                  - TextsFormatter.adjust_length_ja_en p.2) ' '))) ] := by
  rw [format_token_tag_pairs_closed f pairs hm]
  rw [if_neg (by simp [hl])]
  have h1 : (fun p : PyStr × PyStr => ' ' :: tokenSlot f p)
      = fun p : PyStr × PyStr =>
          ' ' :: pyLjust p.1
            (max p.1.length (TextsFormatter.adjust_length_ja_en p.2)) := by
    funext p
    simp [tokenSlot, adjustedLength, hl]
  have h2 : (fun p : PyStr × PyStr => ' ' :: displayedTag f (colorTagOf f pairs) p)
      = fun p : PyStr × PyStr =>
          ' ' :: ((if f.color_enabled then
                    colored p.2 (slotColor f (colorTagOf f pairs) p.2)
                  else p.2)
            ++ List.replicate
                (max p.1.length (TextsFormatter.adjust_length_ja_en p.2)
                  - TextsFormatter.adjust_length_ja_en p.2) ' ') := by
    funext p
    rw [displayedTag_inline f (colorTagOf f pairs) hl p]
    simp [adjustedLength, hl]
  rw [h1, h2]

/-- Witness for C3 at a concrete inline, uncolored input. -/
theorem inline_mode_layout_witness :
    TextsFormatter.format_token_tag_pairs ⟨false, false, none, false, []⟩
        [(str "The", str "DT"), (str "fox", str "名詞")]
      = some [str " The fox ", str " ▔▔▔ ▔▔▔▔", str " DT  名詞"] := by
  rw [inline_mode_layout ⟨false, false, none, false, []⟩
    [(str "The", str "DT"), (str "fox", str "名詞")] rfl
    (fun hce => nomatch hce)]
  decide

/-- C1 (amended): in inline mode without color the composer's lines are the
concatenations of per-pair slots; the printed tag slot always reaches the
pair's column width in display width, and the printed token slot reaches
it exactly when the token's display width equals its character count
(e.g. for ASCII tokens).  Wide-glyph tokens overshoot: see the
counterexample. -/
theorem inline_slot_width_invariant (f : TextsFormatter)
    (pairs : List (PyStr × PyStr)) (hl : f.is_list = false)
    (hc : f.color_enabled = false) (p : PyStr × PyStr) (_hp : p ∈ pairs)
    (htok : TextsFormatter.adjust_length_ja_en p.1 = p.1.length) :
    f.format_token_tag_pairs pairs = some
      [ strConcat (pairs.map (fun q => ' ' :: tokenSlot f q)),
        strConcat (pairs.map (fun q => ' ' :: underlineSlot f (colorTagOf f pairs) q)),
        strConcat (pairs.map (fun q => ' ' :: displayedTag f (colorTagOf f pairs) q)) ] ∧
    TextsFormatter.adjust_length_ja_en (tokenSlot f p) = adjustedLength f p ∧
    TextsFormatter.adjust_length_ja_en (displayedTag f (colorTagOf f pairs) p)
      = adjustedLength f p := by
  have hm : f.color_enabled = true →
      ∀ q ∈ pairs, (pyDictGet (colorTagOf f pairs) q.2).isSome :=
    fun hce => nomatch hc.symm.trans hce
  have hw : p.1.length ≤ adjustedLength f p := by
    simp [adjustedLength, hl]
  have hwt : TextsFormatter.adjust_length_ja_en p.2 ≤ adjustedLength f p := by
    simp [adjustedLength, hl]
  refine ⟨?_, ?_, ?_⟩
  · rw [format_token_tag_pairs_closed f pairs hm, if_neg (by simp [hl])]
  · unfold tokenSlot pyLjust
    rw [adjust_length_append, adjust_length_replicate_space, htok]
    omega
  · rw [displayedTag_inline f (colorTagOf f pairs) hl p, if_neg (by simp [hc]),
      adjust_length_append, adjust_length_replicate_space]
    omega

/-- C1 counterexample: with the wide-glyph token "語" (display width 2,
character count 1) and tag "X", the pair's column width is 1 and the
printed tag slot has display width 1, but the printed token slot has
display width 2. -/
theorem inline_slot_width_counterexample :
    TextsFormatter.format_token_tag_pairs ⟨false, false, none, false, []⟩
        [(str "語", str "X")] = some [str " 語", str " ▔", str " X"] ∧
    adjustedLength ⟨false, false, none, false, []⟩ (str "語", str "X") = 1 ∧
    TextsFormatter.adjust_length_ja_en
        (tokenSlot ⟨false, false, none, false, []⟩ (str "語", str "X")) = 2 ∧
    TextsFormatter.adjust_length_ja_en
        (displayedTag ⟨false, false, none, false, []⟩
          (colorTagOf ⟨false, false, none, false, []⟩ [(str "語", str "X")])
          (str "語", str "X")) = 1 :=
  ⟨by decide, by decide, by decide, by decide⟩

/-- Witness for the amended C1 at an ASCII token. -/
theorem inline_slot_width_invariant_witness :
    TextsFormatter.adjust_length_ja_en (str "The") = (str "The").length ∧
    TextsFormatter.adjust_length_ja_en
        (tokenSlot ⟨false, false, none, false, []⟩ (str "The", str "DT"))
      = adjustedLength ⟨false, false, none, false, []⟩ (str "The", str "DT") :=
  ⟨by decide,
    (inline_slot_width_invariant ⟨false, false, none, false, []⟩
      [(str "The", str "DT")] rfl rfl (str "The", str "DT") (by simp)
      (by decide)).2.1⟩

theorem byLen_trans (a b c : PyStr) :
    decide (a.length ≤ b.length) → decide (b.length ≤ c.length) →
      decide (a.length ≤ c.length) = true := by
  simp only [decide_eq_true_eq]
  exact Nat.le_trans

theorem byLen_total (a b : PyStr) :
    (decide (a.length ≤ b.length) || decide (b.length ≤ a.length)) = true := by
  simp only [Bool.or_eq_true, decide_eq_true_eq]
  exact Nat.le_total _ _

/-- C4 (amended): in list mode with color disabled the tag text is the
"- "-bulleted list of exactly the distinct unwrapped tags of the input
pairs, each exactly once, sorted ascending by text length; with color
enabled the entries are the color-wrapped displayed tags instead (see the
counterexample). -/
theorem list_mode_bullet_list (f : TextsFormatter) (pairs : List (PyStr × PyStr))
    (hl : f.is_list = true) (hc : f.color_enabled = false) :
    (∃ tok ul, f.format_token_tag_pairs pairs = some
      [tok, ul,
        pyJoin (str "\n")
          (((pySetList (pairs.map Prod.snd)).mergeSort
              (fun a b => decide (a.length ≤ b.length))).map
            (fun tag => str "- " ++ tag))]) ∧
    ((pySetList (pairs.map Prod.snd)).mergeSort
        (fun a b => decide (a.length ≤ b.length))).Perm
      (pySetList (pairs.map Prod.snd)) ∧
    ((pySetList (pairs.map Prod.snd)).mergeSort
        (fun a b => decide (a.length ≤ b.length))).Pairwise
      (fun a b => a.length ≤ b.length) ∧
    ((pySetList (pairs.map Prod.snd)).mergeSort
        (fun a b => decide (a.length ≤ b.length))).Nodup ∧
    (∀ tag, tag ∈ pySetList (pairs.map Prod.snd) ↔ tag ∈ pairs.map Prod.snd) := by
  have hm : f.color_enabled = true →
      ∀ q ∈ pairs, (pyDictGet (colorTagOf f pairs) q.2).isSome :=
    fun hce => nomatch hc.symm.trans hce
  have hmapeq : pairs.map (displayedTag f (colorTagOf f pairs))
      = pairs.map Prod.snd :=
    List.map_congr_left
      (fun p _ => displayedTag_list_nocolor f (colorTagOf f pairs) hl hc p)
  have heq := format_token_tag_pairs_closed f pairs hm
  rw [if_pos (by simp [hl]), hmapeq] at heq
  refine ⟨⟨_, _, heq⟩, List.mergeSort_perm _ _, ?_, ?_,
    fun tag => mem_pySetList _ tag⟩
  · have hs := @List.sorted_mergeSort PyStr
      (fun a b => decide (a.length ≤ b.length)) byLen_trans byLen_total
      (pySetList (pairs.map Prod.snd))
    exact hs.imp (fun h => of_decide_eq_true h)
  · exact (List.mergeSort_perm _ _).nodup_iff.mpr (pySetList_nodup _)

/-- C4 counterexample: with color enabled the bullet entry is the
color-wrapped tag, not the unwrapped tag text "NN". -/
theorem list_mode_bullet_list_counterexample :
    TextsFormatter.format_token_tag_pairs ⟨true, false, none, true, []⟩
        [(str "a", str "NN")]
      = some [str " a", str " \x1b[30m▔\x1b[0m", str "- \x1b[30mNN\x1b[0m"] ∧
    str "- \x1b[30mNN\x1b[0m" ≠ str "- " ++ str "NN" := by
  refine ⟨?_, by decide⟩
  rw [format_token_tag_pairs_closed ⟨true, false, none, true, []⟩
    [(str "a", str "NN")] (fun _ => by decide)]
  rw [show pySetList ([(str "a", str "NN")].map
      (displayedTag ⟨true, false, none, true, []⟩
        (colorTagOf ⟨true, false, none, true, []⟩ [(str "a", str "NN")])))
    = [str "\x1b[30mNN\x1b[0m"] from rfl]
  rw [List.mergeSort_singleton]
  rfl

/-- Witness for the amended C4 at a concrete list-mode input with a
duplicate tag. -/
theorem list_mode_bullet_list_witness :
    ∃ tok ul,
      TextsFormatter.format_token_tag_pairs ⟨true, false, none, false, []⟩
          [(str "a", str "NN"), (str "b", str "JJR"), (str "c", str "NN")]
        = some [tok, ul,
            pyJoin (str "\n")
              (((pySetList ([(str "a", str "NN"), (str "b", str "JJR"),
                  (str "c", str "NN")].map Prod.snd)).mergeSort
                  (fun a b => decide (a.length ≤ b.length))).map
                (fun tag => str "- " ++ tag))] :=
  (list_mode_bullet_list ⟨true, false, none, false, []⟩
    [(str "a", str "NN"), (str "b", str "JJR"), (str "c", str "NN")]
    rfl rfl).1

theorem foldlM_fttpStep_none (f : TextsFormatter) (ct : List (PyStr × PyStr))
    (hce : f.color_enabled = true) :
    ∀ (pairs : List (PyStr × PyStr)) (st : FmtState),
      (∃ p ∈ pairs, pyDictGet ct p.2 = none) →
      pairs.foldlM (fttpStep f ct) st = none := by
  intro pairs
  induction pairs with
  | nil =>
      intro st h
      obtain ⟨p, hp, _⟩ := h
      cases hp
  | cons q rest ih =>
      intro st h
      obtain ⟨p, hp, hnone⟩ := h
      rw [List.foldlM_cons]
      rcases List.mem_cons.mp hp with heq | hmem
      · subst heq
        have hstep : fttpStep f ct st p = none := by
          simp [fttpStep, hce, hnone]
        simp [hstep]
      · cases hq : fttpStep f ct st q with
        | none => simp
        | some st2 =>
            simp only [hq, Option.bind_eq_bind, Option.some_bind]
            exact ih st2 ⟨p, hmem, hnone⟩

/-- C6: when the distinct tags outnumber the non-excluded palette colors,
the allocator's domain is exactly the first palette-size many tags (no
cycling or reuse) and every excess tag is unmapped; and the composer with
color enabled fails with a key-lookup error (`none`) on a pair sequence
containing an unmapped tag. -/
theorem palette_exhaustion :
    (∀ tags colors_to_remove : List PyStr, tags.Nodup →
      (TextsFormatter.generate_color_tag tags colors_to_remove).map Prod.fst
          = tags.take (availableColors colors_to_remove).length ∧
      ∀ tag ∈ tags.drop (availableColors colors_to_remove).length,
        pyDictGet (TextsFormatter.generate_color_tag tags colors_to_remove) tag
          = none) ∧
    (∀ (f : TextsFormatter) (pairs : List (PyStr × PyStr)),
      f.color_enabled = true →
      (∃ p ∈ pairs, pyDictGet (colorTagOf f pairs) p.2 = none) →
      f.format_token_tag_pairs pairs = none) := by
  constructor
  · intro tags colors_to_remove hnd
    rw [generate_color_tag_eq_zip tags colors_to_remove hnd]
    refine ⟨map_fst_zip_eq_take tags (availableColors colors_to_remove), ?_⟩
    intro tag htag
    have hfind : ((tags.zip (availableColors colors_to_remove)).find?
        (fun q => decide (q.1 = tag))) = none := by
      rw [List.find?_eq_none]
      intro x hx
      simp only [decide_eq_true_eq]
      intro he
      have hx1 : x.1 ∈ tags.take (availableColors colors_to_remove).length := by
        rw [← map_fst_zip_eq_take tags (availableColors colors_to_remove)]
        exact List.mem_map_of_mem Prod.fst hx
      have hnd2 : (tags.take (availableColors colors_to_remove).length
          ++ tags.drop (availableColors colors_to_remove).length).Nodup := by
        rw [List.take_append_drop]
        exact hnd
      exact (List.nodup_append.mp hnd2).2.2 hx1 (he ▸ htag)
    unfold pyDictGet
    rw [hfind]
    rfl
  · intro f pairs hce hex
    unfold TextsFormatter.format_token_tag_pairs
    dsimp only
    rw [foldlM_fttpStep_none f (colorTagOf f pairs) hce pairs _ hex]
    rfl

/-- Witness for C6: removing the whole palette leaves one distinct tag
unmapped and the colored composer fails. -/
theorem palette_exhaustion_witness :
    ([str "NN"].Nodup ∧
      (⟨false, false, none, true, COLORS.map Prod.fst⟩ :
        TextsFormatter).color_enabled = true) ∧
    (∀ tag ∈ [str "NN"].drop
        (availableColors (COLORS.map Prod.fst)).length,
      pyDictGet (TextsFormatter.generate_color_tag [str "NN"]
        (COLORS.map Prod.fst)) tag = none) ∧
    TextsFormatter.format_token_tag_pairs
        ⟨false, false, none, true, COLORS.map Prod.fst⟩ [(str "a", str "NN")]
      = none :=
  ⟨⟨by decide, rfl⟩,
    (palette_exhaustion.1 [str "NN"] (COLORS.map Prod.fst) (by decide)).2,
    palette_exhaustion.2 ⟨false, false, none, true, COLORS.map Prod.fst⟩
      [(str "a", str "NN")] rfl ⟨(str "a", str "NN"), by simp, by decide⟩⟩

/-- C7: with no configured language code `translate` returns the text
unchanged, in both the base formatter and the DeepL variant. -/
theorem translate_passthrough :
    (∀ (f : TextsFormatter) (translator : PyStr → PyStr → PyStr) (text : PyStr),
      f.language_code = none → f.translate translator text = text) ∧
    (∀ (d : TextsFormatterDeepL) (translator : PyStr → PyStr → PyStr → PyStr)
        (detect : PyStr → PyStr) (text : PyStr),
      d.language_code = none → d.translate translator detect text = text) := by
  constructor
  · intro f translator text h
    unfold TextsFormatter.translate
    rw [h]
  · intro d translator detect text h
    unfold TextsFormatterDeepL.translate
    rw [h]

/-- Witness for C7 with an unset language code. -/
theorem translate_passthrough_witness :
    TextsFormatter.language_code ⟨false, false, none, false, []⟩ = none ∧
    TextsFormatter.translate ⟨false, false, none, false, []⟩
        (fun _ _ => []) (str "hello") = str "hello" :=
  ⟨rfl, translate_passthrough.1 ⟨false, false, none, false, []⟩
    (fun _ _ => []) (str "hello") rfl⟩

/-- C8: the batch formatter on an empty sentence list returns the empty
string, and the composer on an empty pair sequence returns three empty
strings, in every mode, without failing. -/
theorem empty_input_empty_output :
    (∀ (f : TextsFormatter) (translator : PyStr → PyStr → PyStr)
        (terminal_width : Nat),
      f.format translator terminal_width [] = some []) ∧
    (∀ f : TextsFormatter, f.format_token_tag_pairs [] = some [[], [], []]) := by
  constructor
  · intro f translator terminal_width
    rfl
  · intro f
    unfold TextsFormatter.format_token_tag_pairs
    dsimp only
    rw [List.foldlM_nil]
    cases hil : f.is_list <;> simp [hil, pyJoin]

theorem displayedTag_cases (f : TextsFormatter) (ct : List (PyStr × PyStr))
    (q : PyStr × PyStr) (hc : f.color_enabled = false) :
    displayedTag f ct q = q.2 ∨
    displayedTag f ct q = q.2 ++ List.replicate
      (adjustedLength f q - TextsFormatter.adjust_length_ja_en q.2) ' ' := by
  by_cases hcond : ¬f.is_list = true ∧
      TextsFormatter.adjust_length_ja_en q.2 < adjustedLength f q
  · right
    simp only [displayedTag]
    rw [if_pos hcond, if_neg (by simp [hc])]
  · left
    simp only [displayedTag]
    rw [if_neg hcond, if_neg (by simp [hc])]

theorem esc_not_mem_tokenSlot (f : TextsFormatter) (q : PyStr × PyStr)
    (h : '\x1b' ∉ q.1) : '\x1b' ∉ ' ' :: tokenSlot f q := by
  intro hmem
  rcases List.mem_cons.mp hmem with hsp | hmem2
  · exact absurd hsp (by decide)
  · unfold tokenSlot pyLjust at hmem2
    rcases List.mem_append.mp hmem2 with h1 | h2
    · exact h h1
    · exact absurd (List.eq_of_mem_replicate h2) (by decide)

theorem esc_not_mem_underlineSlot (f : TextsFormatter)
    (ct : List (PyStr × PyStr)) (q : PyStr × PyStr)
    (hc : f.color_enabled = false) : '\x1b' ∉ ' ' :: underlineSlot f ct q := by
  intro hmem
  rcases List.mem_cons.mp hmem with hsp | hmem2
  · exact absurd hsp (by decide)
  · unfold underlineSlot at hmem2
    rw [if_neg (by simp [hc])] at hmem2
    exact absurd (List.eq_of_mem_replicate hmem2) (by decide)

theorem esc_not_mem_displayedTag_nocolor (f : TextsFormatter)
    (ct : List (PyStr × PyStr)) (q : PyStr × PyStr)
    (hc : f.color_enabled = false) (h : '\x1b' ∉ q.2) :
    '\x1b' ∉ displayedTag f ct q := by
  intro hmem
  rcases displayedTag_cases f ct q hc with hd | hd <;> rw [hd] at hmem
  · exact h hmem
  · rcases List.mem_append.mp hmem with h1 | h2
    · exact h h1
    · exact absurd (List.eq_of_mem_replicate h2) (by decide)

/-- C10 (amended): with color disabled the composer's output is identical
for any two exclusion lists; and it contains no ANSI escape character
provided no input token or tag contains one.  The original unconditional
no-escape part fails when an input token itself contains ESC: see the
counterexample. -/
theorem color_disabled_hyperproperty (il tr : Bool) (lc : Option PyStr)
    (rm1 rm2 : List PyStr) (pairs : List (PyStr × PyStr)) :
    TextsFormatter.format_token_tag_pairs ⟨il, tr, lc, false, rm1⟩ pairs
      = TextsFormatter.format_token_tag_pairs ⟨il, tr, lc, false, rm2⟩ pairs ∧
    ((∀ p ∈ pairs, '\x1b' ∉ p.1 ∧ '\x1b' ∉ p.2) →
      ∃ lines,
        TextsFormatter.format_token_tag_pairs ⟨il, tr, lc, false, rm1⟩ pairs
          = some lines ∧ ∀ s ∈ lines, '\x1b' ∉ s) := by
  have h1 := format_token_tag_pairs_closed ⟨il, tr, lc, false, rm1⟩ pairs
    (fun hce => nomatch hce)
  have h2 := format_token_tag_pairs_closed ⟨il, tr, lc, false, rm2⟩ pairs
    (fun hce => nomatch hce)
  constructor
  · rw [h1, h2]
    rfl
  · intro hclean
    refine ⟨_, h1, ?_⟩
    intro s hs
    have hdisp : ∀ q ∈ pairs, '\x1b' ∉ displayedTag ⟨il, tr, lc, false, rm1⟩
        (colorTagOf ⟨il, tr, lc, false, rm1⟩ pairs) q :=
      fun q hq => esc_not_mem_displayedTag_nocolor _ _ q rfl (hclean q hq).2
    have hA : '\x1b' ∉ strConcat (pairs.map
        (fun q => ' ' :: tokenSlot ⟨il, tr, lc, false, rm1⟩ q)) := by
      intro hmem
      obtain ⟨x, hx, hcx⟩ := (mem_strConcat _ _).mp hmem
      obtain ⟨q, hq, rfl⟩ := List.mem_map.mp hx
      exact esc_not_mem_tokenSlot _ q (hclean q hq).1 hcx
    have hB : '\x1b' ∉ strConcat (pairs.map
        (fun q => ' ' :: underlineSlot ⟨il, tr, lc, false, rm1⟩
          (colorTagOf ⟨il, tr, lc, false, rm1⟩ pairs) q)) := by
      intro hmem
      obtain ⟨x, hx, hcx⟩ := (mem_strConcat _ _).mp hmem
      obtain ⟨q, hq, rfl⟩ := List.mem_map.mp hx
      exact esc_not_mem_underlineSlot _ _ q rfl hcx
    have hC : '\x1b' ∉ (if (⟨il, tr, lc, false, rm1⟩ : TextsFormatter).is_list then
        pyJoin (str "\n")
          (((pySetList (pairs.map (displayedTag ⟨il, tr, lc, false, rm1⟩
              (colorTagOf ⟨il, tr, lc, false, rm1⟩ pairs)))).mergeSort
              (fun a b => decide (a.length ≤ b.length))).map
            (fun tag => str "- " ++ tag))
      else
        strConcat (pairs.map (fun p => ' ' :: displayedTag ⟨il, tr, lc, false, rm1⟩
          (colorTagOf ⟨il, tr, lc, false, rm1⟩ pairs) p))) := by
      split
      · intro hmem
        rcases mem_pyJoin _ _ _ hmem with hsep | ⟨e, he, hce⟩
        · exact absurd hsep (by decide)
        · obtain ⟨tag, htag, rfl⟩ := List.mem_map.mp he
          rcases List.mem_append.mp hce with hdash | htagmem
          · exact absurd hdash (by decide)
          · have hmem2 : tag ∈ pySetList (pairs.map
                (displayedTag ⟨il, tr, lc, false, rm1⟩
                  (colorTagOf ⟨il, tr, lc, false, rm1⟩ pairs))) :=
              ((List.mergeSort_perm _ _).mem_iff).mp htag
            rw [mem_pySetList] at hmem2
            obtain ⟨q, hq, rfl⟩ := List.mem_map.mp hmem2
            exact hdisp q hq htagmem
      · intro hmem
        obtain ⟨x, hx, hcx⟩ := (mem_strConcat _ _).mp hmem
        obtain ⟨q, hq, rfl⟩ := List.mem_map.mp hx
        rcases List.mem_cons.mp hcx with hsp | hmem2
        · exact absurd hsp (by decide)
        · exact hdisp q hq hmem2
    simp only [List.mem_cons, List.not_mem_nil, or_false] at hs
    rcases hs with rfl | rfl | rfl
    · exact hA
    · exact hB
    · exact hC

/-- C10 counterexample: with color disabled, a token that itself contains
the ESC character makes the output contain an ANSI escape character. -/
theorem color_disabled_escape_counterexample :
    TextsFormatter.format_token_tag_pairs ⟨false, false, none, false, []⟩
        [(str "\x1b[31mx", str "NN")]
      = some [str " \x1b[31mx", str " ▔▔▔▔▔▔", str " NN    "] ∧
    '\x1b' ∈ str " \x1b[31mx" :=
  ⟨by decide, by decide⟩

/-- Witness for the amended C10 at a concrete clean input with two
distinct exclusion lists. -/
theorem color_disabled_hyperproperty_witness :
    (∀ p ∈ [(str "The", str "DT")], '\x1b' ∉ p.1 ∧ '\x1b' ∉ p.2) ∧
    (TextsFormatter.format_token_tag_pairs
        ⟨false, false, none, false, [str "black"]⟩ [(str "The", str "DT")]
      = TextsFormatter.format_token_tag_pairs
        ⟨false, false, none, false, [str "red", str "blue"]⟩
        [(str "The", str "DT")]) ∧
    (∃ lines,
      TextsFormatter.format_token_tag_pairs
          ⟨false, false, none, false, [str "black"]⟩ [(str "The", str "DT")]
        = some lines ∧ ∀ s ∈ lines, '\x1b' ∉ s) :=
  ⟨by decide,
    (color_disabled_hyperproperty false false none [str "black"]
      [str "red", str "blue"] [(str "The", str "DT")]).1,
    (color_disabled_hyperproperty false false none [str "black"]
      [str "red", str "blue"] [(str "The", str "DT")]).2 (by decide)⟩
